import Mathlib

/-!
Verification of the `image_search` crate (src/lib.rs): a shallow embedding of
the response unpacker, the search/urls/download pipeline, the content
sniffer, the path allocator and the concurrent download coordinator,
together with theorems settling the specification claims.

External collaborators (the `serde_json` parser, `std::str::from_utf8`, the
`infer` byte-signature detector, the network fetch, the filesystem glob
check) are modelled as explicit function parameters; everything that lives
in `src/lib.rs` is translated directly.
-/

namespace ImageSearch

/-! ### JSON value model

`serde_json::Value`, with numbers restricted to the integer range that the
record format at hand uses (`is_u64` / `as_i64` carry the exact `u64`/`i64`
range checks of serde_json on integer numbers). -/

inductive Json where
  | null
  | bool (b : Bool)
  | num (n : Int)
  | str (s : String)
  | arr (elems : List Json)
  | obj (entries : List (String × Json))

/-- `Value::as_str`. -/
def Json.as_str : Json → Option String
  | .str s => some s
  | _ => none

/-- `Value::as_i64` (an integer number in the `i64` range). -/
def Json.as_i64 : Json → Option Int
  | .num n => if -(2 ^ 63) ≤ n ∧ n < 2 ^ 63 then some n else none
  | _ => none

/-- `Value::is_u64` (an integer number in the `u64` range). -/
def Json.is_u64 : Json → Bool
  | .num n => decide (0 ≤ n ∧ n < 2 ^ 64)
  | _ => false

/-- `Value::is_array`. -/
def Json.is_array : Json → Bool
  | .arr _ => true
  | _ => false

/-- `Value::as_array`. -/
def Json.as_array : Json → Option (List Json)
  | .arr l => some l
  | _ => none

/-- `Value::as_object`; the object is its entry list in iteration order. -/
def Json.as_object : Json → Option (List (String × Json))
  | .obj kvs => some kvs
  | _ => none

/-! ### The `Image` record (src/lib.rs, `struct Image`) -/

structure Image where
  url : String
  width : Int
  height : Int
  thumbnail : String
  source : String
  deriving DecidableEq

/-! ### Rust panics and the per-entry extraction outcome

Indexing a `Vec` out of bounds and indexing a `serde_json::Map` at a
missing key abort the process; `uoc!` (`unwrap_or_continue`) skips the
current entry. `ERes` is the three-way outcome of one entry's extraction. -/

inductive RustPanic where
  | indexOutOfBounds
  | keyNotFound
  deriving DecidableEq

inductive ERes (α : Type) where
  | panic (e : RustPanic)
  | skip
  | ok (a : α)

def ERes.bind {α β : Type} : ERes α → (α → ERes β) → ERes β
  | .panic e, _ => .panic e
  | .skip, _ => .skip
  | .ok a, f => f a

/-- `Vec` indexing `xs[i]`: panics when out of bounds. -/
def vecIdx {α : Type} (xs : List α) (i : Nat) : ERes α :=
  match xs[i]? with
  | some v => .ok v
  | none => .panic .indexOutOfBounds

/-- `serde_json::Map` indexing `m["k"]`: panics when the key is absent. -/
def mapIdx (kvs : List (String × Json)) (k : String) : ERes Json :=
  match kvs.lookup k with
  | some v => .ok v
  | none => .panic .keyNotFound

/-- `uoc!(v.as_str())`. -/
def uocStr (v : Json) : ERes String :=
  match v.as_str with
  | some s => .ok s
  | none => .skip

/-- `uoc!(v.as_i64())`. -/
def uocI64 (v : Json) : ERes Int :=
  match v.as_i64 with
  | some n => .ok n
  | none => .skip

/-- `uoc!(v.as_array())`. -/
def uocArray (v : Json) : ERes (List Json) :=
  match v.as_array with
  | some l => .ok l
  | none => .skip

/-- `uoc!(v.as_object())`. -/
def uocObject (v : Json) : ERes (List (String × Json)) :=
  match v.as_object with
  | some kvs => .ok kvs
  | none => .skip

/-- The body of the `for obj in image_objects` loop in `unpack`, for one
inner record array `obj`: the `match obj[3].as_array()` extraction of
url/width/height followed by the `Image` literal with its thumbnail and
source lookups, in Rust's left-to-right evaluation order. -/
def extractEntry (obj : List Json) : ERes Image :=
  ERes.bind (vecIdx obj 3) fun v3 =>
    match v3.as_array with
    | none => ERes.skip
    | some i =>
      ERes.bind (vecIdx i 0) fun e0 =>
      ERes.bind (uocStr e0) fun u =>
      ERes.bind (vecIdx i 1) fun e1 =>
      ERes.bind (uocI64 e1) fun w =>
      ERes.bind (vecIdx i 2) fun e2 =>
      ERes.bind (uocI64 e2) fun h =>
      ERes.bind (vecIdx obj 2) fun v2 =>
      ERes.bind (uocArray v2) fun t2 =>
      ERes.bind (vecIdx t2 0) fun t0 =>
      ERes.bind (uocStr t0) fun t =>
      ERes.bind (vecIdx obj 9) fun v9 =>
      ERes.bind (uocObject v9) fun o9 =>
      ERes.bind (mapIdx o9 "2003") fun k =>
      ERes.bind (uocArray k) fun a =>
      ERes.bind (vecIdx a 2) fun s2 =>
      ERes.bind (uocStr s2) fun s =>
      ERes.ok { url := u, width := w, height := h, thumbnail := t, source := s }

/-- The shape filter of `unpack`: the value is an array whose element 0 is
an unsigned integer and whose element 1 is itself an array (safe `get`
accesses). -/
def shapeOk (v : Json) : Bool :=
  match v.as_array with
  | some l =>
      (match l[0]? with | some x => x.is_u64 | none => false)
        && (match l[1]? with | some x => x.is_array | none => false)
  | none => false

/-- The `.map(|image| image.as_array().unwrap()[1].as_array().unwrap())`
projection; the defaults are unreachable for values accepted by
`shapeOk`. -/
def innerOf (v : Json) : List Json :=
  match v with
  | .arr l =>
    match l[1]? with
    | some (Json.arr o) => o
    | _ => []
  | _ => []

/-- The accumulation loop of `unpack` over the object's values: filtered
entries are extracted in order; a skip drops the entry, a panic aborts the
whole call. -/
def unpackLoop : List Json → Except RustPanic (List Image)
  | [] => .ok []
  | v :: rest =>
    if shapeOk v then
      match extractEntry (innerOf v) with
      | .panic e => .error e
      | .skip => unpackLoop rest
      | .ok img =>
        match unpackLoop rest with
        | .error e => .error e
        | .ok imgs => .ok (img :: imgs)
    else unpackLoop rest

/-! ### Sentinel location (Rust `str::find`, `str::rfind`) -/

/-- `hay.find(pat)`: index of the first occurrence of `pat` in `hay`. -/
def findSub (pat : List Char) : List Char → Option Nat
  | [] => if pat.isEmpty then some 0 else none
  | c :: rest =>
    if pat.isPrefixOf (c :: rest) then some 0
    else (findSub pat rest).map (· + 1)

/-- `hay.rfind(c)`: index of the last occurrence of the character `c`. -/
def rfindChar (c : Char) : List Char → Option Nat
  | [] => none
  | d :: rest =>
    match rfindChar c rest with
    | some i => some (i + 1)
    | none => if d = c then some 0 else none

def sentinelStart : List Char := "var m=\x7b".toList

def sentinelEnd : List Char := "var a=m".toList

/-- `unpack` (src/lib.rs): locate `var m={`, cut at `var a=m`, trim back to
the last `;`, parse the isolated text with the external JSON parser, then
run the filtered extraction loop. `Except.error` records a Rust panic
raised inside the loop; `.ok none` is the `None` hard-failure result.
`recv.drop (idx + 6)` is `&recv[start..]` with `start = idx + "var m=".len()`. -/
def unpack (parse : List Char → Option Json) (recv : List Char) :
    Except RustPanic (Option (List Image)) :=
  match findSub sentinelStart recv with
  | none => .ok none
  | some idx =>
    match findSub sentinelEnd (recv.drop (idx + 6)) with
    | none => .ok none
    | some scriptEnd =>
      match rfindChar ';' ((recv.drop (idx + 6)).take scriptEnd) with
      | none => .ok none
      | some e =>
        match parse (((recv.drop (idx + 6)).take scriptEnd).take e) with
        | none => .ok none
        | some j =>
          match j.as_object with
          | none => .ok none
          | some kvs => (unpackLoop (kvs.map Prod.snd)).map Option.some

/-! ### `_search`, `urls`, and the `_download` candidate pool -/

inductive SearchError where
  | parse
  deriving DecidableEq

/-- The truncation step of `_search`:
`if imgs.len() > args.limit && args.limit > 0 { imgs[..limit] } else { imgs }`. -/
def applyLimit (limit : Nat) (imgs : List Image) : List Image :=
  if imgs.length > limit ∧ limit > 0 then imgs.take limit else imgs

/-- `_search` as a function of the fetched body: unpack, map `None` to
`Error::Parse`, truncate to the limit. -/
def searchBody (parse : List Char → Option Json) (recv : List Char) (limit : Nat) :
    Except RustPanic (Except SearchError (List Image)) :=
  (unpack parse recv).map fun
    | none => .error .parse
    | some imgs => .ok (applyLimit limit imgs)

/-- The url selection of `urls`: thumbnail url when the `thumbnails` flag is
set, full url otherwise. -/
def pickUrl (thumbnails : Bool) (img : Image) : String :=
  if thumbnails then img.thumbnail else img.url

/-- `urls` as a function of the fetched body. -/
def urlsBody (parse : List Char → Option Json) (recv : List Char) (limit : Nat)
    (thumbnails : Bool) : Except RustPanic (Except SearchError (List String)) :=
  (searchBody parse recv limit).map (Except.map (List.map (pickUrl thumbnails)))

/-- The candidate pool built by `_download`: it calls `urls` with
`limit: 0` (and the caller's `thumbnails` flag), whatever the requested
download count is. -/
def downloadPool (parse : List Char → Option Json) (recv : List Char)
    (thumbnails : Bool) : Except RustPanic (Except SearchError (List String)) :=
  urlsBody parse recv 0 thumbnails

/-! ### Download errors (src/lib.rs, `enum DownloadError`) -/

inductive DlErr where
  | overflow
  | ext
  | timeout
  | fs
  | network
  deriving DecidableEq

/-- `hay.contains(pat)` on Rust strings. -/
def containsSub (hay pat : List Char) : Bool :=
  (findSub pat hay).isSome

def svgPat : List Char := "<svg".toList

/-! ### Content sniffer (the classification section of `download_image`)

`fromUtf8` models `std::str::from_utf8`; `inferGet` models `infer::get`
(a matched byte signature with its matcher type and extension string). -/

inductive MatcherType where
  | app
  | archive
  | audio
  | book
  | doc
  | font
  | image
  | text
  | video
  | custom
  deriving DecidableEq

structure InferKind where
  matcherType : MatcherType
  extStr : String
  deriving DecidableEq

/-- The `svg` test of `download_image`: decode the first 1024 bytes as
UTF-8; when that succeeds, look for the substring `<svg`. -/
def svgDetected (fromUtf8 : List UInt8 → Option String) (buf : List UInt8) : Bool :=
  match fromUtf8 (buf.take 1024) with
  | some s => containsSub s.toList svgPat
  | none => false

/-- The extension classification of `download_image`: decode the first 1024
bytes as UTF-8 and look for `<svg`; if found the extension is `svg`,
otherwise run byte-signature detection on the whole buffer and fail with
`Extension` when nothing matches or the match is not an image. -/
def classify (fromUtf8 : List UInt8 → Option String)
    (inferGet : List UInt8 → Option InferKind) (buf : List UInt8) :
    Except DlErr String :=
  if svgDetected fromUtf8 buf then .ok "svg"
  else
    match inferGet buf with
    | none => .error .ext
    | some kind =>
      if kind.matcherType ≠ MatcherType.image then .error .ext
      else .ok kind.extStr

/-! ### Path allocator (the suffix loop of `_download`)

`ex stem` models `glob(stem ++ ".*")` returning at least one existing
path. The source's inner `while matches` loop has no bound, so it is given
explicit fuel: `none` stands for the (diverging) case where every suffix
from the cursor on collides. -/

/-- The inner collision loop: starting at suffix `n`, skip ahead past every
colliding suffix and return the first free one. -/
def nextFree (ex : String → Bool) (base : String) : Nat → Nat → Option Nat
  | 0, _ => none
  | fuel + 1, n => if ex (base ++ Nat.repr n) then nextFree ex base fuel (n + 1) else some n

/-- The allocation loop of `_download`: for each of the `k` requested
stems, skip colliding suffixes, emit the free stem, then advance the
cursor one more step. -/
def allocate (ex : String → Bool) (base : String) (fuel : Nat) :
    Nat → Nat → Option (List String)
  | 0, _ => some []
  | k + 1, n =>
    match nextFree ex base fuel n with
    | none => none
    | some m =>
      match allocate ex base fuel k (m + 1) with
      | none => none
      | some rest => some ((base ++ Nat.repr m) :: rest)

/-! ### Sequential slot model (`download_until` with one task)

`attempt u` models one full `download_image` attempt on url `u`: either
the resolved path of the written file or a `DownloadError`. The function
returns the slot outcome together with the urls attempted and the urls
left in the pool. -/

def download_until (attempt : String → Except DlErr String) (tried : List String) :
    List String → Except DlErr String × List String × List String
  | [] => (.error .overflow, tried, [])
  | u :: rest =>
    match attempt u with
    | .ok p => (.ok p, tried ++ [u], rest)
    | .error _ => download_until attempt (tried ++ [u]) rest

/-! ### Concurrent download coordinator (`download_n` / `next_available!`)

One state machine per call: the shared pool (a suffix of the original
candidate list, popped at the head under the mutex) plus one slot per
destination stem. A step is one loop iteration of one running slot: pop
the head url and resolve the attempt (`att u = some e` succeeds with
extension `e`), or overflow when the pool is empty. `consumed` counts the
pops; `tried` records, per slot, the original-pool indices that slot
attempted. Attempt outcomes depend only on the url, so folding the pop and
its attempt into one atomic step preserves every count, ordering and
ownership property of the interleaved execution. -/

inductive SlotSt where
  | running
  | done (p : String)
  | over
  deriving DecidableEq

structure DSlot where
  stem : String
  tried : List Nat
  st : SlotSt
  deriving DecidableEq

structure DState where
  consumed : Nat
  pool : List String
  slots : List DSlot
  deriving DecidableEq

/-- The state at the start of `download_n`: full pool, every slot running. -/
def DState.init (P : List String) (stems : List String) : DState :=
  ⟨0, P, stems.map fun st => ⟨st, [], .running⟩⟩

/-- One scheduler step of the coordinator. -/
inductive DStep (att : String → Option String) : DState → DState → Prop
  | pop (s : DState) (i : Nat) (sl : DSlot) (u : String) (rest : List String)
      (hi : s.slots[i]? = some sl) (hr : sl.st = .running) (hp : s.pool = u :: rest) :
      DStep att s
        ⟨s.consumed + 1, rest,
          s.slots.set i
            { sl with
              tried := sl.tried ++ [s.consumed],
              st :=
                match att u with
                | some e => .done (sl.stem ++ "." ++ e)
                | none => .running }⟩
  | over (s : DState) (i : Nat) (sl : DSlot)
      (hi : s.slots[i]? = some sl) (hr : sl.st = .running) (hp : s.pool = []) :
      DStep att s ⟨s.consumed, [], s.slots.set i { sl with st := .over }⟩

/-- All states the coordinator call can reach from its initial state. -/
def Reach (att : String → Option String) (P stems : List String) (s : DState) : Prop :=
  Relation.ReflTransGen (DStep att) (DState.init P stems) s

/-- `future::join_all` has returned: no slot is still running. -/
def DState.terminal (s : DState) : Prop :=
  ∀ sl ∈ s.slots, sl.st ≠ SlotSt.running

/-- The value of `download_n`: the resolved paths of the successful slots,
in slot order (`filter_map(|x| x.ok())`). -/
def DState.results (s : DState) : List String :=
  s.slots.filterMap fun sl =>
    match sl.st with
    | .done p => some p
    | _ => none

/-! ### Auxiliary predicates for the theorems -/

/-- The hard-failure condition of `unpack`: start sentinel absent, end
sentinel absent, no statement terminator before the end sentinel, or the
isolated text rejected by the JSON parser. -/
def hardFail (parse : List Char → Option Json) (recv : List Char) : Prop :=
  match findSub sentinelStart recv with
  | none => True
  | some idx =>
    match findSub sentinelEnd (recv.drop (idx + 6)) with
    | none => True
    | some scriptEnd =>
      match rfindChar ';' ((recv.drop (idx + 6)).take scriptEnd) with
      | none => True
      | some e => parse (((recv.drop (idx + 6)).take scriptEnd).take e) = none

/-- Soundness property of the external JSON parser that `unpack` relies
on: a document whose first character is `{`, if it parses at all, parses
to an object (true of serde_json). -/
def JsonParserOk (parse : List Char → Option Json) : Prop :=
  ∀ s j, parse s = some j → s.head? = some '\x7b' → (Json.as_object j).isSome

/-- Coordinator invariant: the pop count is bounded by the pool size, the
remaining pool is the corresponding suffix of the original pool, the slot
count is fixed, and the slots' attempted indices are, as a multiset,
exactly the consumed pool positions. -/
def DInv (P stems : List String) (s : DState) : Prop :=
  s.consumed ≤ P.length
    ∧ s.pool = P.drop s.consumed
    ∧ s.slots.length = stems.length
    ∧ ((s.slots.map DSlot.tried).flatten).Perm (List.range s.consumed)

/-- No slot has succeeded (used for the all-attempts-fail scenario). -/
def NoDone (s : DState) : Prop :=
  ∀ sl ∈ s.slots, ∀ p, sl.st ≠ SlotSt.done p

/-! ### Decimal representation helpers

`Nat.repr` is implemented with the fuel-driven `Nat.toDigitsCore`;
`decDigits` is its fuel-free counterpart, and `decVal` decodes it, giving
injectivity of the suffix-to-stem encoding of the path allocator. -/

def decDigits (n : Nat) : List Char :=
  if _h : n < 10 then [Nat.digitChar n]
  else decDigits (n / 10) ++ [Nat.digitChar (n % 10)]
termination_by n
decreasing_by exact Nat.div_lt_self (by omega) (by omega)

def digitVal (c : Char) : Nat := c.toNat - 48

def decVal (l : List Char) : Nat :=
  l.foldl (fun acc c => acc * 10 + digitVal c) 0

/-! ### Concrete bodies used by the counterexamples and witnesses

`exParseN` is the external JSON parser restricted to the one document the
example needs; each maps exactly the isolated text of the corresponding
body to its parse tree. -/

/-- The C1 example entry verbatim from the claim:
`record[3] = [null,"U",1920,1080]`. -/
def exJson1 : List Char :=
  "\x7b\"0\":[1,[null,null,[\"T\"],[null,\"U\",1920,1080],null,null,null,null,null,\x7b\"2003\":[null,null,\"S\"]\x7d]]\x7d".toList

def exBody1 : List Char :=
  "var m=\x7b\"0\":[1,[null,null,[\"T\"],[null,\"U\",1920,1080],null,null,null,null,null,\x7b\"2003\":[null,null,\"S\"]\x7d]]\x7d;var a=m".toList

def exVal1 : Json :=
  .obj [("0", .arr [.num 1, .arr [.null, .null, .arr [.str "T"],
    .arr [.null, .str "U", .num 1920, .num 1080],
    .null, .null, .null, .null, .null,
    .obj [("2003", .arr [.null, .null, .str "S"])]]])]

def exParse1 : List Char → Option Json := fun s => if s = exJson1 then some exVal1 else none

/-- The example entry with the url at `record[3][0]` (the position the
code actually reads): `record[3] = ["U",1920,1080]`. -/
def exJson1b : List Char :=
  "\x7b\"0\":[1,[null,null,[\"T\"],[\"U\",1920,1080],null,null,null,null,null,\x7b\"2003\":[null,null,\"S\"]\x7d]]\x7d".toList

def exBody1b : List Char :=
  "var m=\x7b\"0\":[1,[null,null,[\"T\"],[\"U\",1920,1080],null,null,null,null,null,\x7b\"2003\":[null,null,\"S\"]\x7d]]\x7d;var a=m".toList

def exVal1b : Json :=
  .obj [("0", .arr [.num 1, .arr [.null, .null, .arr [.str "T"],
    .arr [.str "U", .num 1920, .num 1080],
    .null, .null, .null, .null, .null,
    .obj [("2003", .arr [.null, .null, .str "S"])]]])]

def exParse1b : List Char → Option Json := fun s => if s = exJson1b then some exVal1b else none

/-- A sole entry whose inner record array has 9 elements (indices 0–8),
i.e. index 9 is missing. -/
def exJson2 : List Char :=
  "\x7b\"0\":[1,[null,null,[\"T\"],[\"U\",1920,1080],null,null,null,null,null]]\x7d".toList

def exBody2 : List Char :=
  "var m=\x7b\"0\":[1,[null,null,[\"T\"],[\"U\",1920,1080],null,null,null,null,null]]\x7d;var a=m".toList

def exVal2 : Json :=
  .obj [("0", .arr [.num 1, .arr [.null, .null, .arr [.str "T"],
    .arr [.str "U", .num 1920, .num 1080],
    .null, .null, .null, .null, .null]])]

def exParse2 : List Char → Option Json := fun s => if s = exJson2 then some exVal2 else none

/-- A sole entry `[1,[]]`: well-formed JSON accepted by the shape filter,
with an empty inner record array. -/
def exJson4 : List Char := "\x7b\"0\":[1,[]]\x7d".toList

def exBody4 : List Char := "var m=\x7b\"0\":[1,[]]\x7d;var a=m".toList

def exVal4 : Json := .obj [("0", .arr [.num 1, .arr []])]

def exParse4 : List Char → Option Json := fun s => if s = exJson4 then some exVal4 else none

/-! ## Theorems -/

set_option maxRecDepth 40000

/-- C1 (counterexample): unpacking the claim's own example body — whose
sole entry has `record[3] = [null,"U",1920,1080]` — yields the empty list,
not the claimed single image: the code reads the url from `record[3][0]`,
which is `null` here, so the entry is skipped. -/
theorem C1_counterexample :
    unpack exParse1 exBody1 = .ok (some [])
      ∧ unpack exParse1 exBody1 ≠
        .ok (some [⟨"U", 1920, 1080, "T", "S"⟩]) := by
  have h : unpack exParse1 exBody1 = .ok (some []) := rfl
  refine ⟨h, ?_⟩
  intro hc
  rw [h] at hc
  simp at hc

/-- C1 (amended): for every entry accepted by the shape filter whose inner
record has, at index 3, an array beginning with a string and two i64
integers, at index 2 an array beginning with a string, and at index 9 an
object whose key "2003" holds an array with a string at index 2, the
extraction reads url from `record[3][0]`, width from `record[3][1]`,
height from `record[3][2]`, thumbnail from `record[2][0]` and source from
`record[9]["2003"][2]`; and unpacking the example body whose sole entry
has `record[3] = ["U",1920,1080]` yields exactly the one claimed image. -/
theorem C1_positional_extraction
    (x0 x1 x4 x5 x6 x7 x8 y0 y1 : Json) (t u s : String) (w h : Int)
    (r2 r3 r9 tail : List Json) (kvs : List (String × Json))
    (hw : Json.as_i64 (Json.num w) = some w)
    (hh : Json.as_i64 (Json.num h) = some h)
    (hk : kvs.lookup "2003" = some (Json.arr (y0 :: y1 :: Json.str s :: r9))) :
    extractEntry
        (x0 :: x1 :: Json.arr (Json.str t :: r2)
          :: Json.arr (Json.str u :: Json.num w :: Json.num h :: r3)
          :: x4 :: x5 :: x6 :: x7 :: x8 :: Json.obj kvs :: tail) =
      .ok ⟨u, w, h, t, s⟩
    ∧ unpack exParse1b exBody1b = .ok (some [⟨"U", 1920, 1080, "T", "S"⟩]) := by
  refine ⟨?_, rfl⟩
  simp [extractEntry, vecIdx, mapIdx, uocStr, uocI64, uocArray, uocObject,
    Json.as_array, Json.as_str, Json.as_object, hw, hh, hk, ERes.bind]

/-- C1 (witness): the amended extraction equation evaluated at the example
record. -/
theorem C1_positional_extraction_witness :
    extractEntry
        (Json.null :: Json.null :: Json.arr [Json.str "T"]
          :: Json.arr [Json.str "U", Json.num 1920, Json.num 1080]
          :: Json.null :: Json.null :: Json.null :: Json.null :: Json.null
          :: Json.obj [("2003", Json.arr [Json.null, Json.null, Json.str "S"])] :: []) =
      .ok ⟨"U", 1920, 1080, "T", "S"⟩
    ∧ unpack exParse1b exBody1b = .ok (some [⟨"U", 1920, 1080, "T", "S"⟩]) :=
  C1_positional_extraction Json.null Json.null Json.null Json.null Json.null
    Json.null Json.null Json.null Json.null "T" "U" "S" 1920 1080
    [] [] [] [] [("2003", Json.arr [Json.null, Json.null, Json.str "S"])]
    rfl rfl rfl

/-- C2: unpacking a body whose sole well-shaped entry has a 9-element
inner record array (index 9 missing) aborts with an out-of-bounds `Vec`
index — the Rust code panics in `obj[9]` — instead of skipping the entry
as the claim states. -/
theorem C2_short_entry_panics :
    unpack exParse2 exBody2 = .error RustPanic.indexOutOfBounds := rfl

/-- C9 (counterexample): with requested limit 0 and one parsed image — so
the unpacker yields more images than the limit — the search does not
return the first 0 images: it returns the whole list. -/
theorem C9_counterexample :
    searchBody exParse1b exBody1b 0 =
        .ok (.ok [⟨"U", 1920, 1080, "T", "S"⟩])
      ∧ searchBody exParse1b exBody1b 0 ≠
        .ok (.ok (List.take 0 [⟨"U", 1920, 1080, "T", "S"⟩])) := by
  have h : searchBody exParse1b exBody1b 0 =
      .ok (.ok [⟨"U", 1920, 1080, "T", "S"⟩]) := rfl
  refine ⟨h, ?_⟩
  intro hc
  rw [h] at hc
  simp at hc

/-- C9 (amended): search truncates the parsed list exactly when the limit
is positive and the list is longer than it, returning its first `limit`
elements in order; otherwise — including whenever the limit is 0 — the
parsed list is returned unchanged. -/
theorem C9_truncation (parse : List Char → Option Json) (recv : List Char)
    (limit : Nat) (imgs : List Image)
    (hu : unpack parse recv = .ok (some imgs)) :
    searchBody parse recv limit = .ok (.ok (applyLimit limit imgs))
      ∧ (0 < limit → limit < imgs.length → applyLimit limit imgs = imgs.take limit)
      ∧ (imgs.length ≤ limit ∨ limit = 0 → applyLimit limit imgs = imgs) := by
  refine ⟨?_, ?_, ?_⟩
  · simp [searchBody, hu, Except.map]
  · intro h1 h2
    simp [applyLimit, h1, h2]
  · intro hd
    have hn : ¬ (imgs.length > limit ∧ limit > 0) := by omega
    simp [applyLimit, hn]

/-- C9 (witness): the amended truncation behaviour at the one-image
example body, with limit 2 (no truncation) and limit 0 (no truncation). -/
theorem C9_truncation_witness :
    searchBody exParse1b exBody1b 2 =
        .ok (.ok (applyLimit 2 [⟨"U", 1920, 1080, "T", "S"⟩]))
      ∧ applyLimit 2 [⟨"U", 1920, 1080, "T", "S"⟩] = [⟨"U", 1920, 1080, "T", "S"⟩] := by
  have h := C9_truncation exParse1b exBody1b 2 [⟨"U", 1920, 1080, "T", "S"⟩] rfl
  exact ⟨h.1, h.2.2 (Or.inl (by decide))⟩

/-- C10: with limit 0 the search truncates nothing and returns every
parsed image, and the download pipeline's candidate pool — built by
calling `urls` with `limit: 0` whatever count was requested — therefore
contains the url (or thumbnail, per the flag) of every parsed image. -/
theorem C10_pool_is_untruncated (parse : List Char → Option Json)
    (recv : List Char) (thumbnails : Bool) (imgs : List Image)
    (hu : unpack parse recv = .ok (some imgs)) :
    applyLimit 0 imgs = imgs
      ∧ searchBody parse recv 0 = .ok (.ok imgs)
      ∧ downloadPool parse recv thumbnails =
          .ok (.ok (imgs.map (pickUrl thumbnails))) := by
  have h0 : applyLimit 0 imgs = imgs := by simp [applyLimit]
  refine ⟨h0, ?_, ?_⟩
  · simp [searchBody, hu, Except.map, h0]
  · simp [downloadPool, urlsBody, searchBody, hu, Except.map, h0]

/-- C10 (witness): the pool equation at the one-image example body. -/
theorem C10_pool_is_untruncated_witness :
    downloadPool exParse1b exBody1b false = .ok (.ok ["U"]) :=
  (C10_pool_is_untruncated exParse1b exBody1b false
    [⟨"U", 1920, 1080, "T", "S"⟩] rfl).2.2

/-- C5: when the UTF-8 decoded 1024-byte head contains `<svg` the sniffer
classifies the buffer as `svg` regardless of the byte-signature detector;
otherwise classification fails with an Extension error exactly when no
signature matches or the matched signature is not an image, and returns
the matched extension in the remaining case. -/
theorem C5_svg_precedence (fromUtf8 : List UInt8 → Option String)
    (inferGet : List UInt8 → Option InferKind) (buf : List UInt8) :
    (∀ s, fromUtf8 (buf.take 1024) = some s → containsSub s.toList svgPat = true →
        classify fromUtf8 inferGet buf = .ok "svg")
      ∧ (svgDetected fromUtf8 buf = false →
          (classify fromUtf8 inferGet buf = .error DlErr.ext ↔
            inferGet buf = none
              ∨ ∃ k, inferGet buf = some k ∧ k.matcherType ≠ MatcherType.image))
      ∧ (svgDetected fromUtf8 buf = false → ∀ k, inferGet buf = some k →
          k.matcherType = MatcherType.image →
          classify fromUtf8 inferGet buf = .ok k.extStr) := by
  refine ⟨?_, ?_, ?_⟩
  · intro s hs hc
    have hd : svgDetected fromUtf8 buf = true := by simpa [svgDetected, hs] using hc
    simp [classify, hd]
  · intro hf
    cases hg : inferGet buf with
    | none => simp [classify, hf, hg]
    | some k =>
      by_cases hm : k.matcherType = MatcherType.image
      · simp [classify, hf, hg, hm]
      · simp [classify, hf, hg, hm]
  · intro hf k hg hm
    simp [classify, hf, hg, hm]

/-- C5 (witness): a buffer whose decoded head is `<svg>` is classified
`svg` even though the byte-signature detector reports nothing. -/
theorem C5_svg_precedence_witness :
    classify (fun _ => some "<svg>") (fun _ => none) [0] = .ok "svg" :=
  (C5_svg_precedence (fun _ => some "<svg>") (fun _ => none) [0]).1 "<svg>" rfl rfl

/-- C8: a single slot retries on an attempt failure of any kind by drawing
the next pool candidate and stops at the first success: with pool
`[u1,u2,u3]`, a failing `u1` and a succeeding `u2`, the slot resolves to
`u2`'s path, exactly `u1` and `u2` are attempted, and `u3` is left in the
pool untouched. -/
theorem C8_retry_until_success (attempt : String → Except DlErr String)
    (u1 u2 u3 p : String) (e : DlErr)
    (h1 : attempt u1 = .error e) (h2 : attempt u2 = .ok p) :
    download_until attempt [] [u1, u2, u3] = (.ok p, [u1, u2], [u3]) := by
  simp [download_until, h1, h2]

/-- C8 (witness): the retry behaviour with a concrete attempt oracle that
fails on "a" with a network error and succeeds on "b". -/
theorem C8_retry_until_success_witness :
    download_until
        (fun u => if u = "b" then .ok "out.png" else .error DlErr.network)
        [] ["a", "b", "c"] =
      (.ok "out.png", ["a", "b"], ["c"]) :=
  C8_retry_until_success
    (fun u => if u = "b" then .ok "out.png" else .error DlErr.network)
    "a" "b" "c" "out.png" DlErr.network (by simp) (by simp)

/-! ### Sentinel-location lemmas for C4 -/

/-- A successful `find` really locates the pattern: the pattern is a
prefix of the haystack from the reported index on. -/
theorem findSub_sound (pat : List Char) :
    ∀ (hay : List Char) (i : Nat), findSub pat hay = some i →
      pat <+: hay.drop i := by
  intro hay
  induction hay with
  | nil =>
    intro i h
    simp only [findSub] at h
    split at h
    · rename_i hp
      cases h
      have : pat = [] := by simpa [List.isEmpty_iff] using hp
      simp [this]
    · cases h
  | cons c rest ih =>
    intro i h
    simp only [findSub] at h
    split at h
    · rename_i hp
      cases h
      simpa using List.isPrefixOf_iff_prefix.mp hp
    · cases hr : findSub pat rest with
      | none => rw [hr] at h; cases h
      | some j =>
        rw [hr] at h
        simp only [Option.map_some'] at h
        cases h
        simpa [List.drop_succ_cons] using ih j hr

/-- The text `unpack` hands to the JSON parser starts with `{`: it starts
right after `var m=` inside the matched `var m={` sentinel, and the two
truncations keep a nonempty head because neither the end sentinel (which
starts with `v`) nor the statement terminator `;` can sit at position 0. -/
theorem isolated_head (recv : List Char) (idx scriptEnd e : Nat)
    (h1 : findSub sentinelStart recv = some idx)
    (h2 : findSub sentinelEnd (recv.drop (idx + 6)) = some scriptEnd)
    (h3 : rfindChar ';' ((recv.drop (idx + 6)).take scriptEnd) = some e) :
    (((recv.drop (idx + 6)).take scriptEnd).take e).head? = some '\x7b' := by
  obtain ⟨t, ht⟩ := findSub_sound sentinelStart recv idx h1
  have hb : recv.drop (idx + 6) = '\x7b' :: t := by
    have hd : recv.drop (idx + 6) = (recv.drop idx).drop 6 := by
      rw [List.drop_drop]
    rw [hd, ← ht]
    rfl
  rw [hb] at h2 h3
  rw [hb]
  simp only [findSub] at h2
  split at h2
  · rename_i hp
    obtain ⟨t2, ht2⟩ := List.isPrefixOf_iff_prefix.mp hp
    rw [show sentinelEnd = 'v' :: "ar a=m".toList from rfl, List.cons_append] at ht2
    exact absurd (List.cons.inj ht2).1 (by decide)
  · cases hr : findSub sentinelEnd t with
    | none => rw [hr] at h2; cases h2
    | some j =>
      rw [hr] at h2
      simp only [Option.map_some'] at h2
      cases h2
      rw [List.take_succ_cons] at h3
      rw [List.take_succ_cons]
      simp only [rfindChar] at h3
      cases hr3 : rfindChar ';' (t.take j) with
      | none =>
        rw [hr3] at h3
        simp at h3
      | some i =>
        rw [hr3] at h3
        cases h3
        simp [List.take_succ_cons]

/-- C4 (amended): for a parser with serde_json's object-soundness
property, `unpack` returns `None` exactly when a hard parse failure occurs
(start sentinel absent, end sentinel absent, no statement terminator, or
the isolated text rejected by the parser); `_search` maps exactly that
case to the `Parse` error with no partial results; and whenever there is
no hard failure, any non-panicking run returns `Some` of a list. -/
theorem C4_hard_failure (parse : List Char → Option Json)
    (hp : JsonParserOk parse) (recv : List Char) :
    (unpack parse recv = .ok none ↔ hardFail parse recv)
      ∧ (∀ limit, searchBody parse recv limit = .ok (.error SearchError.parse)
          ↔ hardFail parse recv)
      ∧ (∀ r, unpack parse recv = .ok r → ¬ hardFail parse recv →
          ∃ l, r = some l) := by
  have main : unpack parse recv = .ok none ↔ hardFail parse recv := by
    unfold unpack hardFail
    cases h1 : findSub sentinelStart recv with
    | none => simp [h1]
    | some idx =>
      cases h2 : findSub sentinelEnd (recv.drop (idx + 6)) with
      | none => simp [h1, h2]
      | some scriptEnd =>
        cases h3 : rfindChar ';' ((recv.drop (idx + 6)).take scriptEnd) with
        | none => simp [h1, h2, h3]
        | some e =>
          cases h4 : parse (((recv.drop (idx + 6)).take scriptEnd).take e) with
          | none => simp [h1, h2, h3, h4]
          | some j =>
            have hobj := hp _ _ h4 (isolated_head recv idx scriptEnd e h1 h2 h3)
            cases hj : j.as_object with
            | none => rw [hj] at hobj; cases hobj
            | some kvs =>
              cases hl : unpackLoop (kvs.map Prod.snd) with
              | error e2 => simp [h1, h2, h3, h4, hj, hl, Except.map]
              | ok imgs => simp [h1, h2, h3, h4, hj, hl, Except.map]
  refine ⟨main, ?_, ?_⟩
  · intro limit
    constructor
    · intro hc
      apply main.mp
      unfold searchBody at hc
      cases hu : unpack parse recv with
      | error e2 => rw [hu] at hc; simp [Except.map] at hc
      | ok r =>
        cases r with
        | none => rfl
        | some imgs => rw [hu] at hc; simp [Except.map] at hc
    · intro hf
      unfold searchBody
      rw [main.mpr hf]
      rfl
  · intro r hr hnf
    cases r with
    | none => exact absurd (main.mp hr) hnf
    | some l => exact ⟨l, rfl⟩

/-- C4 (witness): the characterisation applied to a body with no start
sentinel, where unpacking hard-fails. -/
theorem C4_hard_failure_witness :
    (unpack exParse1b "hello".toList = .ok none
        ↔ hardFail exParse1b "hello".toList)
      ∧ unpack exParse1b "hello".toList = .ok none := by
  have hp : JsonParserOk exParse1b := by
    intro s j hsj _
    unfold exParse1b at hsj
    split at hsj
    · cases hsj; rfl
    · cases hsj
  exact ⟨(C4_hard_failure exParse1b hp "hello".toList).1, rfl⟩

/-- C4 (counterexample): a body whose sentinels are present and whose
isolated text is valid JSON — no hard parse failure — on which `unpack`
nevertheless does not return `Some`: its sole entry `[1,[]]` makes the
extraction panic on `obj[3]`, refuting the claim's "in every other case it
returns Some(list)". -/
theorem C4_counterexample :
    ¬ hardFail exParse4 exBody4
      ∧ unpack exParse4 exBody4 = .error RustPanic.indexOutOfBounds
      ∧ ∀ l, unpack exParse4 exBody4 ≠ .ok (some l) := by
  have hu : unpack exParse4 exBody4 = .error RustPanic.indexOutOfBounds := rfl
  refine ⟨?_, hu, ?_⟩
  · intro hf
    have hx : (some exVal4 : Option Json) = none := hf
    cases hx
  · intro l hc
    rw [hu] at hc
    cases hc

/-! ### Decimal representation lemmas for C6 -/

/-- With adequate fuel, core's fuel-driven digit printer agrees with the
fuel-free `decDigits`. -/
theorem toDigitsCore_eq_decDigits (fuel : Nat) :
    ∀ (n : Nat) (ds : List Char), n < fuel →
      Nat.toDigitsCore 10 fuel n ds = decDigits n ++ ds := by
  induction fuel with
  | zero => intro n ds h; omega
  | succ fuel ih =>
    intro n ds _h
    rw [Nat.toDigitsCore]
    by_cases h0 : n / 10 = 0
    · have hlt : n < 10 := by omega
      rw [decDigits, dif_pos hlt, Nat.mod_eq_of_lt hlt]
      simp [h0]
    · have hge : ¬ n < 10 := by omega
      have hdlt : n / 10 < fuel := by
        have := Nat.div_lt_self (by omega : 0 < n) (by omega : 1 < 10)
        omega
      rw [decDigits, dif_neg hge]
      simp only [h0, if_false]
      rw [ih (n / 10) (Nat.digitChar (n % 10) :: ds) hdlt]
      simp [List.append_assoc]

theorem toDigits_eq_decDigits (n : Nat) : Nat.toDigits 10 n = decDigits n := by
  rw [Nat.toDigits, toDigitsCore_eq_decDigits (n + 1) n [] (by omega), List.append_nil]

theorem digitVal_digitChar (d : Nat) (h : d < 10) :
    digitVal (Nat.digitChar d) = d := by
  interval_cases d <;> rfl

theorem decVal_append_singleton (l : List Char) (c : Char) :
    decVal (l ++ [c]) = decVal l * 10 + digitVal c := by
  simp [decVal, List.foldl_append]

/-- `decVal` decodes `decDigits`, so the decimal representation is lossless. -/
theorem decVal_decDigits (n : Nat) : decVal (decDigits n) = n := by
  induction n using Nat.strong_induction_on with
  | _ n ih =>
    rw [decDigits]
    by_cases h : n < 10
    · rw [dif_pos h]
      show 0 * 10 + digitVal (Nat.digitChar n) = n
      rw [digitVal_digitChar n h]
      omega
    · rw [dif_neg h, decVal_append_singleton,
        ih (n / 10) (Nat.div_lt_self (by omega) (by omega)),
        digitVal_digitChar (n % 10) (Nat.mod_lt n (by omega))]
      omega

/-- `Nat.repr` is injective, stated on the underlying character data. -/
theorem natReprData_inj (m n : Nat) (h : (Nat.repr m).data = (Nat.repr n).data) :
    m = n := by
  have hd : Nat.toDigits 10 m = Nat.toDigits 10 n := h
  rw [toDigits_eq_decDigits, toDigits_eq_decDigits] at hd
  have hv := congrArg decVal hd
  rwa [decVal_decDigits, decVal_decDigits] at hv

/-- The allocator's suffix-to-stem encoding is injective. -/
theorem stem_encode_inj (base : String) (a b : Nat)
    (h : base ++ Nat.repr a = base ++ Nat.repr b) : a = b := by
  apply natReprData_inj
  have hd : base.data ++ (Nat.repr a).data = base.data ++ (Nat.repr b).data :=
    congrArg String.data h
  exact List.append_cancel_left hd

/-- A successful inner collision loop returns a suffix at or after the
cursor whose stem is collision-free. -/
theorem nextFree_sound (ex : String → Bool) (base : String) :
    ∀ (fuel n m : Nat), nextFree ex base fuel n = some m →
      n ≤ m ∧ ex (base ++ Nat.repr m) = false := by
  intro fuel
  induction fuel with
  | zero => intro n m h; cases h
  | succ fuel ih =>
    intro n m h
    rw [nextFree] at h
    split at h
    · obtain ⟨h1, h2⟩ := ih (n + 1) m h
      exact ⟨by omega, h2⟩
    · rename_i hx
      cases h
      exact ⟨Nat.le_refl n, by simpa using hx⟩

/-- Structure of a successful allocation: the emitted stems are the
encodings of a strictly increasing list of suffixes, all at or after the
starting cursor and all collision-free. -/
theorem allocate_sound (ex : String → Bool) (base : String) :
    ∀ (k fuel n : Nat) (stems : List String),
      allocate ex base fuel k n = some stems →
      ∃ suf : List Nat,
        stems = suf.map (fun m => base ++ Nat.repr m)
          ∧ suf.length = k
          ∧ (∀ m ∈ suf, n ≤ m)
          ∧ suf.Pairwise (· < ·)
          ∧ (∀ m ∈ suf, ex (base ++ Nat.repr m) = false) := by
  intro k
  induction k with
  | zero =>
    intro fuel n stems h
    rw [allocate] at h
    cases h
    exact ⟨[], by simp⟩
  | succ k ih =>
    intro fuel n stems h
    rw [allocate] at h
    cases hnf : nextFree ex base fuel n with
    | none => simp [hnf] at h
    | some m =>
      simp only [hnf] at h
      cases hal : allocate ex base fuel k (m + 1) with
      | none => simp [hal] at h
      | some rest =>
        simp only [hal] at h
        cases h
        obtain ⟨hnm, hfree⟩ := nextFree_sound ex base fuel n m hnf
        obtain ⟨suf, hs1, hs2, hs3, hs4, hs5⟩ := ih fuel (m + 1) rest hal
        refine ⟨m :: suf, ?_, ?_, ?_, ?_, ?_⟩
        · simp [hs1]
        · simp [hs2]
        · intro x hx
          rcases List.mem_cons.mp hx with hx | hx
          · omega
          · have := hs3 x hx; omega
        · rw [List.pairwise_cons]
          exact ⟨fun y hy => by have := hs3 y hy; omega, hs4⟩
        · intro x hx
          rcases List.mem_cons.mp hx with hx | hx
          · subst hx; exact hfree
          · exact hs5 x hx

/-- C6: a successful allocation emits `k` distinct stems encoding a
strictly increasing suffix sequence — the counter advances monotonically
across the whole call, a skipped (colliding) suffix is never emitted and
never revisited, and every emitted stem is collision-free; concretely,
with an existing `cat0` stem, base `"cat"` and count 2, the emitted stems
are `["cat1", "cat2"]`. -/
theorem C6_collision_free_stems (ex : String → Bool) (base : String)
    (fuel k n : Nat) (stems : List String)
    (ha : allocate ex base fuel k n = some stems) :
    (∃ suf : List Nat,
      stems = suf.map (fun m => base ++ Nat.repr m)
        ∧ suf.length = k
        ∧ (∀ m ∈ suf, n ≤ m)
        ∧ suf.Pairwise (· < ·)
        ∧ (∀ m ∈ suf, ex (base ++ Nat.repr m) = false)
        ∧ stems.Nodup)
    ∧ allocate (fun st => st == "cat0") "cat" 100 2 0 = some ["cat1", "cat2"] := by
  obtain ⟨suf, hs1, hs2, hs3, hs4, hs5⟩ := allocate_sound ex base k fuel n stems ha
  refine ⟨⟨suf, hs1, hs2, hs3, hs4, hs5, ?_⟩, by decide⟩
  have hnd : suf.Nodup := hs4.imp Nat.ne_of_lt
  rw [hs1]
  exact hnd.map_on fun x _ y _ hxy => stem_encode_inj base x y hxy

/-- C6 (witness): the structure theorem applied to the concrete
`cat0.png` directory example. -/
theorem C6_collision_free_stems_witness :
    ∃ suf : List Nat,
      ["cat1", "cat2"] = suf.map (fun m => "cat" ++ Nat.repr m)
        ∧ suf.length = 2
        ∧ (∀ m ∈ suf, 0 ≤ m)
        ∧ suf.Pairwise (· < ·)
        ∧ (∀ m ∈ suf, (fun st => st == "cat0") ("cat" ++ Nat.repr m) = false)
        ∧ (["cat1", "cat2"] : List String).Nodup :=
  ((C6_collision_free_stems (fun st => st == "cat0") "cat" 100 2 0
    ["cat1", "cat2"] (by decide)).1).imp fun _suf hs =>
      ⟨hs.1, hs.2.1, hs.2.2.1, hs.2.2.2.1, hs.2.2.2.2.1, hs.2.2.2.2.2⟩

/-! ### Coordinator invariant lemmas for C3 and C7 -/

/-- Appending an element to one member of a list of lists appends it, up
to permutation, to the flattening. -/
theorem flatten_set_perm (a : Nat) :
    ∀ (ls : List (List Nat)) (i : Nat) (x : List Nat), ls[i]? = some x →
      ((ls.set i (x ++ [a])).flatten).Perm (ls.flatten ++ [a]) := by
  intro ls
  induction ls with
  | nil => intro i x h; simp at h
  | cons hd tl ih =>
    intro i x h
    cases i with
    | zero =>
      simp only [List.getElem?_cons_zero, Option.some.injEq] at h
      subst h
      simp only [List.set_cons_zero, List.flatten_cons]
      have hca : (([a] ++ tl.flatten)).Perm (tl.flatten ++ [a]) :=
        List.perm_append_comm
      simpa [List.append_assoc] using hca.append_left hd
    | succ i =>
      simp only [List.getElem?_cons_succ] at h
      simp only [List.set_cons_succ, List.flatten_cons]
      have := (ih i x h).append_left hd
      simpa [List.append_assoc] using this

/-- Setting an index to the value it already holds is the identity. -/
theorem set_self_of_getElem {α : Type} :
    ∀ (ls : List α) (i : Nat) (x : α), ls[i]? = some x → ls.set i x = ls := by
  intro ls
  induction ls with
  | nil => intro i x h; simp at h
  | cons hd tl ih =>
    intro i x h
    cases i with
    | zero =>
      simp only [List.getElem?_cons_zero, Option.some.injEq] at h
      subst h
      simp
    | succ i =>
      simp only [List.getElem?_cons_succ] at h
      simp [List.set_cons_succ, ih i x h]

/-- The coordinator invariant holds initially. -/
theorem dinv_init (P stems : List String) : DInv P stems (DState.init P stems) := by
  refine ⟨by simp [DState.init], by simp [DState.init], by simp [DState.init], ?_⟩
  have : ((DState.init P stems).slots.map DSlot.tried).flatten = [] := by
    rw [List.flatten_eq_nil_iff]
    intro l hl
    simp only [DState.init, List.map_map, List.mem_map] at hl
    obtain ⟨st, _, rfl⟩ := hl
    rfl
  rw [this]
  simp [DState.init]

/-- One coordinator step preserves the invariant. -/
theorem dinv_step (att : String → Option String) (P stems : List String)
    (s s' : DState) (hstep : DStep att s s') (hinv : DInv P stems s) :
    DInv P stems s' := by
  obtain ⟨hc, hpool, hlen, hperm⟩ := hinv
  cases hstep with
  | pop i sl u rest hi hr hp =>
    have hne : P.drop s.consumed ≠ [] := by
      rw [← hpool, hp]
      simp
    have hlt : s.consumed < P.length := by
      by_contra hge
      exact hne (List.drop_eq_nil_of_le (by omega))
    have hmt : (s.slots.map DSlot.tried)[i]? = some sl.tried := by
      simp [List.getElem?_map, hi]
    refine ⟨by show s.consumed + 1 ≤ P.length; omega, ?_, by simp [hlen], ?_⟩
    · show rest = P.drop (s.consumed + 1)
      rw [← List.tail_drop, ← hpool, hp]
      rfl
    · show ((s.slots.set i _).map DSlot.tried).flatten.Perm (List.range (s.consumed + 1))
      rw [List.map_set]
      refine (flatten_set_perm s.consumed (s.slots.map DSlot.tried) i sl.tried hmt).trans ?_
      rw [List.range_succ]
      exact hperm.append_right [s.consumed]
  | over i sl hi hr hp =>
    have hmt : (s.slots.map DSlot.tried)[i]? = some sl.tried := by
      simp [List.getElem?_map, hi]
    refine ⟨hc, ?_, by simp [hlen], ?_⟩
    · show ([] : List String) = P.drop s.consumed
      rw [← hpool, hp]
    · show ((s.slots.set i _).map DSlot.tried).flatten.Perm (List.range s.consumed)
      rw [List.map_set]
      rw [show ({ sl with st := SlotSt.over } : DSlot).tried = sl.tried from rfl]
      rw [set_self_of_getElem (s.slots.map DSlot.tried) i sl.tried hmt]
      exact hperm

/-- Every reachable coordinator state satisfies the invariant. -/
theorem reach_inv (att : String → Option String) (P stems : List String)
    (s : DState) (h : Reach att P stems s) : DInv P stems s := by
  unfold Reach at h
  induction h with
  | refl => exact dinv_init P stems
  | tail _hab hbc ih => exact dinv_step att P stems _ _ hbc ih

/-- If every pool url fails, one step preserves the absence of successes. -/
theorem nodone_step (att : String → Option String) (P stems : List String)
    (hatt : ∀ u ∈ P, att u = none) (s s' : DState)
    (hreach : Reach att P stems s) (hstep : DStep att s s') (hnd : NoDone s) :
    NoDone s' := by
  cases hstep with
  | pop i sl u rest hi hr hp =>
    have hinv := reach_inv att P stems s hreach
    have hu : u ∈ P := by
      have hm : u ∈ s.pool := by rw [hp]; exact List.mem_cons_self u rest
      rw [hinv.2.1] at hm
      exact List.drop_subset _ _ hm
    have hau : att u = none := hatt u hu
    intro sl' hmem p
    rcases List.mem_or_eq_of_mem_set hmem with hin | heq
    · exact hnd sl' hin p
    · subst heq
      simp [hau]
  | over i sl hi hr hp =>
    intro sl' hmem p
    rcases List.mem_or_eq_of_mem_set hmem with hin | heq
    · exact hnd sl' hin p
    · subst heq
      simp

/-- If every pool url fails, no reachable state has a successful slot. -/
theorem reach_nodone (att : String → Option String) (P stems : List String)
    (hatt : ∀ u ∈ P, att u = none) (s : DState)
    (h : Reach att P stems s) : NoDone s := by
  unfold Reach at h
  induction h with
  | refl =>
    intro sl hmem p
    simp only [DState.init, List.mem_map] at hmem
    obtain ⟨st, _, rfl⟩ := hmem
    simp
  | tail hab hbc ih =>
    exact nodone_step att P stems hatt _ _ hab hbc ih

/-- C3: in every reachable state of a coordinator call over pool `P`, the
number of pops never exceeds the pool size and equals the total of the
slots' attempt counts, the remaining pool is the suffix of `P` after the
consumed prefix (FIFO head pops), the attempted pool positions are — as a
multiset — exactly the consumed prefix (each element removed exactly
once), and no position is attempted by two different slots. -/
theorem C3_pool_discipline (att : String → Option String) (P stems : List String)
    (s : DState) (h : Reach att P stems s) :
    s.consumed ≤ P.length
      ∧ s.pool = P.drop s.consumed
      ∧ ((s.slots.map DSlot.tried).flatten).Perm (List.range s.consumed)
      ∧ (s.slots.map fun sl => sl.tried.length).sum = s.consumed
      ∧ (∀ (i j : Nat) (hi : i < s.slots.length) (hj : j < s.slots.length),
          i ≠ j → ∀ x, x ∈ s.slots[i].tried → x ∉ s.slots[j].tried) := by
  obtain ⟨h1, h2, _h3, h4⟩ := reach_inv att P stems s h
  refine ⟨h1, h2, h4, ?_, ?_⟩
  · have hl := h4.length_eq
    simpa [List.length_flatten, List.map_map, Function.comp] using hl
  · have hnd : ((s.slots.map DSlot.tried).flatten).Nodup :=
      h4.symm.nodup (List.nodup_range _)
    obtain ⟨_, hpair⟩ := List.nodup_flatten.mp hnd
    have hget := List.pairwise_iff_getElem.mp hpair
    intro i j hi hj hne x hxi hxj
    rcases Nat.lt_or_ge i j with hij | hij
    · exact hget i j (by simpa using hi) (by simpa using hj)
        hij (by simpa using hxi) (by simpa using hxj)
    · have hji : j < i := by omega
      exact hget j i (by simpa using hj) (by simpa using hi)
        hji (by simpa using hxj) (by simpa using hxi)

/-- C3 (witness): the pool discipline at a concrete reachable state (one
pop taken from a one-element pool by a single slot). -/
theorem C3_pool_discipline_witness :
    (⟨1, [], [⟨"s", [0], SlotSt.running⟩]⟩ : DState).consumed ≤
        (["a"] : List String).length
      ∧ (⟨1, [], [⟨"s", [0], SlotSt.running⟩]⟩ : DState).pool =
        (["a"] : List String).drop 1 := by
  have htrace : Reach (fun _ => none) ["a"] ["s"]
      ⟨1, [], [⟨"s", [0], SlotSt.running⟩]⟩ :=
    Relation.ReflTransGen.single
      (DStep.pop (DState.init ["a"] ["s"]) 0 ⟨"s", [], SlotSt.running⟩ "a" []
        rfl rfl rfl)
  have h := C3_pool_discipline (fun _ => none) ["a"] ["s"] _ htrace
  exact ⟨h.1, h.2.1⟩

/-- C7: at the end of a coordinator call (all tasks terminated) the output
is the list of resolved paths of the successful slots, of size at most the
slot count; and in the scenario of a one-url pool whose url always fails
with two slots, every slot overflows and the output is empty — overflowed
slots contribute nothing and do not fail the call. -/
theorem C7_successful_slots (att : String → Option String) (P stems : List String)
    (s : DState) (h : Reach att P stems s) (ht : s.terminal) :
    s.results.length ≤ stems.length
      ∧ (∀ u, P = [u] → att u = none →
          s.results = [] ∧ ∀ sl ∈ s.slots, sl.st = SlotSt.over) := by
  have hinv := reach_inv att P stems s h
  constructor
  · calc s.results.length ≤ s.slots.length := List.length_filterMap_le _ _
      _ = stems.length := hinv.2.2.1
  · intro u hP hau
    have hatt : ∀ v ∈ P, att v = none := by
      intro v hv
      rw [hP] at hv
      simp only [List.mem_singleton] at hv
      subst hv
      exact hau
    have hnd : NoDone s := reach_nodone att P stems hatt s h
    have hall : ∀ sl ∈ s.slots, sl.st = SlotSt.over := by
      intro sl hmem
      have h1 := ht sl hmem
      have h2 := hnd sl hmem
      cases hst : sl.st with
      | running => exact absurd hst h1
      | done p => exact absurd hst (h2 p)
      | over => rfl
    refine ⟨?_, hall⟩
    rw [DState.results, List.filterMap_eq_nil_iff]
    intro sl hmem
    rw [hall sl hmem]

/-- C7 (witness): a complete run — one pop that fails, then both slots
overflow — of the two-slot, one-url scenario. -/
theorem C7_successful_slots_witness :
    (⟨1, [], [⟨"s0", [0], SlotSt.over⟩, ⟨"s1", [], SlotSt.over⟩]⟩ : DState).results = []
      ∧ ∀ sl ∈ (⟨1, [], [⟨"s0", [0], SlotSt.over⟩, ⟨"s1", [], SlotSt.over⟩]⟩
          : DState).slots, sl.st = SlotSt.over := by
  have t1 : DStep (fun _ => none) (DState.init ["u"] ["s0", "s1"])
      ⟨1, [], [⟨"s0", [0], SlotSt.running⟩, ⟨"s1", [], SlotSt.running⟩]⟩ :=
    DStep.pop (DState.init ["u"] ["s0", "s1"]) 0 ⟨"s0", [], SlotSt.running⟩ "u" []
      rfl rfl rfl
  have t2 : DStep (fun _ => none)
      (⟨1, [], [⟨"s0", [0], SlotSt.running⟩, ⟨"s1", [], SlotSt.running⟩]⟩ : DState)
      ⟨1, [], [⟨"s0", [0], SlotSt.over⟩, ⟨"s1", [], SlotSt.running⟩]⟩ :=
    DStep.over _ 0 ⟨"s0", [0], SlotSt.running⟩ rfl rfl rfl
  have t3 : DStep (fun _ => none)
      (⟨1, [], [⟨"s0", [0], SlotSt.over⟩, ⟨"s1", [], SlotSt.running⟩]⟩ : DState)
      ⟨1, [], [⟨"s0", [0], SlotSt.over⟩, ⟨"s1", [], SlotSt.over⟩]⟩ :=
    DStep.over _ 1 ⟨"s1", [], SlotSt.running⟩ rfl rfl rfl
  have htrace : Reach (fun _ => none) ["u"] ["s0", "s1"]
      ⟨1, [], [⟨"s0", [0], SlotSt.over⟩, ⟨"s1", [], SlotSt.over⟩]⟩ :=
    Relation.ReflTransGen.tail
      (Relation.ReflTransGen.tail (Relation.ReflTransGen.single t1) t2) t3
  exact (C7_successful_slots (fun _ => none) ["u"] ["s0", "s1"] _ htrace
    (by unfold DState.terminal; decide)).2 "u" rfl rfl

end ImageSearch
